import Mathlib

/-!
Shallow embedding of the grocery-analysis aggregation pipeline.

Source files:
* src/src/GroceryAnalysisFreeside2025.tsx — processData : CSV rows → five
  derived aggregates (category, store, monthly, top items, trip stats).
* src/src/Search.tsx — loadData (same row-cleaning logic) and handleSearch :
  substring search with purchase/price history.

Modelling conventions:
* JS numbers are modelled as ℚ (the source only adds, divides and compares
  receipt amounts; float rounding is not modelled).
* A parsed CSV cell is string-or-number (Papa.parse with dynamicTyping), see
  Value below.
* JS objects used as accumulator dictionaries are modelled as association
  lists in insertion order (for string keys JS preserves insertion order;
  integer-like keys would be iterated first, but every object built here is
  either re-sorted afterwards or used only through its key set, so iteration
  order of the dictionaries never shows in the modelled outputs).
* Array.prototype.sort with a comparator is modelled by a stable insertion
  sort, sortBy below, where lt a b means comparator a b < 0.
* String.prototype operations (toLowerCase, trim, includes, substring) are
  modelled structurally on the character list of the string.
-/

namespace Grocery

/-- A loosely-typed scalar cell produced by the CSV parser
(Papa.parse with dynamicTyping: numeric-looking tokens become numbers). -/
inductive Value where
  | str (s : String)
  | num (q : ℚ)
deriving DecidableEq

/-- Decimal digits of a natural number, fuel-based so it reduces in the kernel. -/
def natDigits : ℕ → ℕ → List Char
  | 0, _ => []
  | fuel + 1, n =>
    if n = 0 then [] else natDigits fuel (n / 10) ++ [Char.ofNat (48 + n % 10)]

/-- Decimal rendering of a natural number. -/
def natToStr (n : ℕ) : String :=
  if n = 0 then "0" else ⟨natDigits n n⟩

/-- Decimal rendering of an integer. -/
def intToStr : ℤ → String
  | Int.ofNat n => natToStr n
  | Int.negSucc n => "-" ++ natToStr (n + 1)

/-- Rendering of a JS number as a string (integers in decimal, other
rationals as num/den); models the implicit number-to-string coercion in
template literals and .toString(). -/
def numToStr (q : ℚ) : String :=
  if q.den = 1 then intToStr q.num else intToStr q.num ++ "/" ++ natToStr q.den

/-- JS string coercion of a cell value (template literal, .toString()). -/
def Value.jsStr : Value → String
  | .str s => s
  | .num q => numToStr q

/-- JS truthiness of a cell value: the empty string and the number 0 are
falsy, everything else in the modelled domain is truthy. -/
def Value.truthy : Value → Bool
  | .str s => decide (s ≠ "")
  | .num q => decide (q ≠ 0)

/-- JS + on loosely-typed values: number + number adds, any string operand
concatenates (used for the quantity accumulator in Search.tsx). -/
def jsAdd : Value → Value → Value
  | .num a, .num b => .num (a + b)
  | a, b => .str (a.jsStr ++ b.jsStr)

/-- Lowercasing, structurally on the character list (String.toLowerCase). -/
def jsToLower (s : String) : String :=
  ⟨s.data.map Char.toLower⟩

/-- Whitespace test for the characters String.prototype.trim strips. -/
def isWS (c : Char) : Bool :=
  decide (c = ' ') || decide (c = '\t') || decide (c = '\n') || decide (c = '\r')

/-- String.prototype.trim: strip leading and trailing whitespace. -/
def jsTrim (s : String) : String :=
  ⟨((s.data.dropWhile isWS).reverse.dropWhile isWS).reverse⟩

/-- Does hay start with needle? (helper for substring containment). -/
def leadsWith : List Char → List Char → Bool
  | [], _ => true
  | _ :: _, [] => false
  | a :: as, b :: bs => decide (a = b) && leadsWith as bs

/-- Substring containment on character lists (String.prototype.includes). -/
def containsSub : List Char → List Char → Bool
  | [], needle => leadsWith needle []
  | c :: t, needle => leadsWith needle (c :: t) || containsSub t needle

/-- String.prototype.includes for string arguments. -/
def jsIncludes (hay needle : String) : Bool :=
  containsSub hay.data needle.data

/-- Does the string contain the character '-'? (item.Date.includes('-')). -/
def includesDash (s : String) : Bool :=
  s.data.any (fun c => decide (c = '-'))

/-- String.prototype.substring(0, 7): first seven characters. -/
def substring07 (s : String) : String :=
  ⟨s.data.take 7⟩

/-- Lexicographic strict order on character lists, by code point; models the
ordering of localeCompare on the ASCII date/month keys used in the source. -/
def charsLt : List Char → List Char → Bool
  | [], [] => false
  | [], _ :: _ => true
  | _ :: _, [] => false
  | a :: as, b :: bs => if a = b then charsLt as bs else decide (a < b)

/-- Lexicographic strict order on strings. -/
def strLt (a b : String) : Bool :=
  charsLt a.data b.data

/-- Stable insertion of an element into a list: a goes in front of the first
element b with lt a b, i.e. after every earlier element that compares
less-or-equal (this is the placement a stable comparator sort gives). -/
def insertBy (lt : α → α → Bool) (a : α) : List α → List α
  | [] => [a]
  | b :: l => if lt a b then a :: b :: l else b :: insertBy lt a l

/-- Stable sort by a strict comparator, modelling Array.prototype.sort with
comparator c where lt a b ↔ c a b < 0. -/
def sortBy (lt : α → α → Bool) : List α → List α
  | [] => []
  | a :: l => insertBy lt a (sortBy lt l)

/-- Rounding of q to d decimal places (JS Number.prototype.toFixed, kept as
a rational instead of a display string). -/
def toFixed (d : ℕ) (q : ℚ) : ℚ :=
  ((round (q * 10 ^ d) : ℤ) : ℚ) / 10 ^ d

/-- A normalized record: one accepted CSV row mapped onto the fixed 8-field
schema headers = [Date, Store, Category, Item, Quantity, Unit, Price, Total].
Only Total is guaranteed numeric by the row filter. -/
structure NormalizedRecord where
  Date : Value
  Store : Value
  Category : Value
  Item : Value
  Quantity : Value
  Unit : Value
  Price : Value
  Total : ℚ
deriving DecidableEq

/-- Row cleaning from processData (GroceryAnalysisFreeside2025.tsx lines
49-60) and loadData (Search.tsx lines 31-42): a row is skipped when it has
fewer than 8 positional values, the first 8 values are mapped onto the
headers, and the row is skipped when the value mapped to Total is not a
number; values beyond the 8th are never read. -/
def cleanRow (row : List Value) : Option NormalizedRecord :=
  if 8 ≤ row.length then
    match row.getD 7 (Value.str "") with
    | Value.num t =>
      some
        { Date := row.getD 0 (Value.str "")
          Store := row.getD 1 (Value.str "")
          Category := row.getD 2 (Value.str "")
          Item := row.getD 3 (Value.str "")
          Quantity := row.getD 4 (Value.str "")
          Unit := row.getD 5 (Value.str "")
          Price := row.getD 6 (Value.str "")
          Total := t }
    | Value.str _ => none
  else none

/-- The cleanedData array: all accepted rows in input order. -/
def cleanData (rows : List (List Value)) : List NormalizedRecord :=
  rows.filterMap cleanRow

/-- Update of a JS-object dictionary entry: if the key is present apply f to
its value in place, otherwise append the key with f applied to the initial
value (models `if (!obj[k]) obj[k] = v0; obj[k] = f(obj[k])`). -/
def bump (k : String) (f : α → α) (v0 : α) : List (String × α) → List (String × α)
  | [] => [(k, f v0)]
  | (k', v) :: m => if k' = k then (k', f v) :: m else (k', v) :: bump k f v0 m

/-- One iteration of a `cleanedData.forEach` dictionary loop: a record with
a key creates its entry on first sight from init and then applies upd;
a record without a key is skipped. -/
def groupStep (key : NormalizedRecord → Option String) (init : NormalizedRecord → α)
    (upd : NormalizedRecord → α → α) (m : List (String × α)) (r : NormalizedRecord) :
    List (String × α) :=
  match key r with
  | some k => bump k (upd r) (init r) m
  | none => m

/-- Generic accumulation loop over the record set. Models every
`cleanedData.forEach` dictionary loop in the source. -/
def jsGroup (key : NormalizedRecord → Option String) (init : NormalizedRecord → α)
    (upd : NormalizedRecord → α → α) (recs : List NormalizedRecord) : List (String × α) :=
  recs.foldl (groupStep key init upd) []

/-- Lookup in an association-list dictionary. -/
def findVal (k : String) : List (String × α) → Option α
  | [] => none
  | (k', v) :: m => if k' = k then some v else findVal k m

/-- The grand total recomputed by the reduce calls on lines 78, 95 and 163:
sum of the Total field over the whole cleaned record set, CRV included. -/
def sumTotals (recs : List NormalizedRecord) : ℚ :=
  recs.foldl (fun s r => s + r.Total) 0

/-- One row of the category or store summary. -/
structure SummaryEntry where
  name : String
  value : ℚ
  percentage : ℚ
deriving DecidableEq

/-- Grouping key of the category dictionary (lines 65-73): records with
Category strictly equal to the string "CRV" are skipped. -/
def categoryKey (r : NormalizedRecord) : Option String :=
  if r.Category = Value.str "CRV" then none else some r.Category.jsStr

/-- The categoryArray (lines 75-79): category dictionary mapped to summary
entries with percentage of the all-records grand total, sorted descending
by value. -/
def categoryArray (recs : List NormalizedRecord) : List SummaryEntry :=
  sortBy (fun a b => decide (b.value < a.value))
    ((jsGroup categoryKey (fun _ => (0 : ℚ)) (fun r v => v + r.Total) recs).map
      (fun p => ⟨p.1, p.2, toFixed 1 (p.2 * 100 / sumTotals recs)⟩))

/-- The storeArray (lines 84-96): same shape keyed by Store, no exclusion. -/
def storeArray (recs : List NormalizedRecord) : List SummaryEntry :=
  sortBy (fun a b => decide (b.value < a.value))
    ((jsGroup (fun r => some r.Store.jsStr) (fun _ => (0 : ℚ)) (fun r v => v + r.Total) recs).map
      (fun p => ⟨p.1, p.2, toFixed 1 (p.2 * 100 / sumTotals recs)⟩))

/-- One row of the monthly summary. -/
structure MonthEntry where
  month : String
  spent : ℚ
deriving DecidableEq

/-- Grouping key of the months dictionary (lines 102-110): only records
whose Date is a string containing '-' contribute, under the key
Date.substring(0, 7). -/
def monthKey (r : NormalizedRecord) : Option String :=
  match r.Date with
  | Value.str s => if includesDash s then some (substring07 s) else none
  | Value.num _ => none

/-- The monthArray (lines 112-115): months dictionary sorted ascending by
month key (localeCompare). -/
def monthArray (recs : List NormalizedRecord) : List MonthEntry :=
  sortBy (fun a b => strLt a.month b.month)
    ((jsGroup monthKey (fun _ => (0 : ℚ)) (fun r v => v + r.Total) recs).map
      (fun p => ⟨p.1, p.2⟩))

/-- Accumulator of the items dictionary (lines 120-133). -/
structure ItemStats where
  count : ℕ
  total : ℚ
  category : Value
deriving DecidableEq

/-- One entry of the top-items list. -/
structure TopItem where
  name : String
  count : ℕ
  total : ℚ
  category : Value
  avgPrice : ℚ
deriving DecidableEq

/-- Grouping key of the items dictionary: records with Category "CRV" are
skipped, others are keyed by their Item value. -/
def itemKey (r : NormalizedRecord) : Option String :=
  if r.Category = Value.str "CRV" then none else some r.Item.jsStr

/-- The itemArray (lines 135-145): items dictionary (count, total, category
of the first contributing record), filtered on category ≠ "CRV", mapped to
entries with avgPrice = (total / count).toFixed(2), sorted descending by
count, truncated to the first 10. -/
def itemArray (recs : List NormalizedRecord) : List TopItem :=
  (sortBy (fun a b => decide (b.count < a.count))
    (((jsGroup itemKey (fun r => ({ count := 0, total := 0, category := r.Category } : ItemStats))
          (fun r v => ⟨v.count + 1, v.total + r.Total, v.category⟩) recs).filter
        (fun p => decide (p.2.category ≠ Value.str "CRV"))).map
      (fun p => ⟨p.1, p.2.count, p.2.total, p.2.category,
        toFixed 2 (p.2.total / (p.2.count : ℚ))⟩))).take 10

/-- Overall stats object (lines 163-171). -/
structure Stats where
  totalSpent : ℚ
  avgPerTrip : ℚ
  totalTrips : ℕ
  totalItems : ℕ
deriving DecidableEq

/-- The trips dictionary (lines 150-161): records grouped by the template
literal key derived from Date. -/
def trips (recs : List NormalizedRecord) : List (String × (ℚ × ℕ)) :=
  jsGroup (fun r => some r.Date.jsStr) (fun _ => ((0 : ℚ), (0 : ℕ)))
    (fun r v => (v.1 + r.Total, v.2 + 1)) recs

/-- The stats object (lines 163-171). -/
def stats (recs : List NormalizedRecord) : Stats :=
  { totalSpent := sumTotals recs
    avgPerTrip := sumTotals recs / ((trips recs).length : ℚ)
    totalTrips := (trips recs).length
    totalItems := recs.length }

/-- Everything processData publishes into component state (lines 36-179). -/
structure ProcessResult where
  data : List NormalizedRecord
  categoryData : List SummaryEntry
  storeData : List SummaryEntry
  monthlyData : List MonthEntry
  topItems : List TopItem
  overall : Stats
deriving DecidableEq

/-- processData, from parsed rows onward (the Papa.parse call itself is the
external CSV parser and is not modelled). -/
def processData (rows : List (List Value)) : ProcessResult :=
  let cleanedData := cleanData rows
  { data := cleanedData
    categoryData := categoryArray cleanedData
    storeData := storeArray cleanedData
    monthlyData := monthArray cleanedData
    topItems := itemArray cleanedData
    overall := stats cleanedData }

/-- One bar of the purchase history (Search.tsx lines 71-85): date, summed
quantity (missing or falsy quantity defaults to 1; a string quantity
concatenates, as JS + does), summed total. -/
structure HistoryEntry where
  date : String
  quantity : Value
  total : ℚ
deriving DecidableEq

/-- One point of the price history (Search.tsx lines 93-104): date and the
first observed Price of that date. -/
structure PriceEntry where
  date : String
  price : Value
deriving DecidableEq

/-- The four pieces of state handleSearch writes (Search.tsx lines 8-11). -/
structure SearchState where
  searchResults : List NormalizedRecord
  totalSpent : ℚ
  purchaseHistory : List HistoryEntry
  priceHistory : List PriceEntry
deriving DecidableEq

/-- The result filter (Search.tsx lines 59-62): records whose Item is truthy
and whose string form, lowercased, contains the lowercased search term. -/
def searchFilter (searchTerm : String) (data : List NormalizedRecord) : List NormalizedRecord :=
  data.filter (fun r => r.Item.truthy && jsIncludes (jsToLower r.Item.jsStr) (jsToLower searchTerm))

/-- Grouping key of historyByDate (line 73): records whose Date is a string,
keyed by the exact date string. -/
def historyDateKey (r : NormalizedRecord) : Option String :=
  match r.Date with
  | Value.str d => some d
  | Value.num _ => none

/-- The historyArray (Search.tsx lines 71-88): per-date quantity and total,
sorted ascending by date (localeCompare). -/
def historyArray (results : List NormalizedRecord) : List HistoryEntry :=
  sortBy (fun a b => strLt a.date b.date)
    ((jsGroup historyDateKey
        (fun r => ⟨r.Date.jsStr, Value.num 0, 0⟩)
        (fun r v =>
          ⟨v.date, jsAdd v.quantity (if r.Quantity.truthy then r.Quantity else Value.num 1),
            v.total + r.Total⟩)
        results).map Prod.snd)

/-- Grouping key of priceByDate (line 95): records whose Date is a string
and whose Price and Quantity are both truthy. -/
def priceDateKey (r : NormalizedRecord) : Option String :=
  match r.Date with
  | Value.str d => if r.Price.truthy && r.Quantity.truthy then some d else none
  | Value.num _ => none

/-- The priceArray (Search.tsx lines 93-107): first observed Price per date
(the entry is created on first sight and never updated), sorted ascending
by date. -/
def priceArray (results : List NormalizedRecord) : List PriceEntry :=
  sortBy (fun a b => strLt a.date b.date)
    ((jsGroup priceDateKey (fun r => ⟨r.Date.jsStr, r.Price⟩) (fun _ v => v) results).map
      Prod.snd)

/-- handleSearch (Search.tsx lines 56-110) as a transition on the search
state: a blank term is a no-op, otherwise all four outputs are recomputed
from the filtered subset. -/
def handleSearch (searchTerm : String) (data : List NormalizedRecord)
    (st : SearchState) : SearchState :=
  if jsTrim searchTerm = "" then st
  else
    { searchResults := searchFilter searchTerm data
      totalSpent := (searchFilter searchTerm data).foldl (fun s r => s + r.Total) 0
      purchaseHistory := historyArray (searchFilter searchTerm data)
      priceHistory := priceArray (searchFilter searchTerm data) }

/-! Concrete record sets used to instantiate and to refute claims. -/

/-- The empty search state (initial component state in Search.tsx). -/
def stEmpty : SearchState :=
  ⟨[], 0, [], []⟩

/-- A Whole Milk record with Total 3.50 (the spec's search example). -/
def recWholeMilk : NormalizedRecord :=
  ⟨.str "2025-01-05", .str "MarketA", .str "Dairy", .str "Whole Milk", .num 1, .str "ea",
    .num (7 / 2), 7 / 2⟩

/-- An Almond Milk record with Total 4.00 (the spec's search example). -/
def recAlmondMilk : NormalizedRecord :=
  ⟨.str "2025-01-06", .str "MarketB", .str "Dairy", .str "Almond Milk", .num 1, .str "ea",
    .num 4, 4⟩

/-- The spec's two-record milk data set. -/
def milkSet : List NormalizedRecord :=
  [recWholeMilk, recAlmondMilk]

/-- A deposit-fee record with Category "CRV" and Total 1. -/
def recCrv : NormalizedRecord :=
  ⟨.str "2025-01-05", .str "MarketA", .str "CRV", .str "CRV Fee", .num 1, .str "ea",
    .num 1, 1⟩

/-- An ordinary Produce record with Total 3. -/
def recApples : NormalizedRecord :=
  ⟨.str "2025-02-07", .str "MarketA", .str "Produce", .str "Apples", .num 2, .str "lb",
    .num 3, 3⟩

/-- A record whose Item cell is the number 0 (e.g. a CSV cell "0" after type
inference). -/
def recZeroItem : NormalizedRecord :=
  ⟨.str "2025-01-05", .str "MarketA", .str "Snacks", .num 0, .num 1, .str "ea",
    .num 1, 1⟩

/-- A record whose Date string has no dash. -/
def recNoDash : NormalizedRecord :=
  ⟨.str "20250105", .str "MarketA", .str "Produce", .str "Pears", .num 1, .str "lb",
    .num 2, 2⟩

/-- A second same-date Whole Milk record with a different Price, for the
first-seen-price behaviour. -/
def recWholeMilkB : NormalizedRecord :=
  ⟨.str "2025-01-05", .str "MarketB", .str "Dairy", .str "Whole Milk", .num 1, .str "ea",
    .num 5, 5⟩

/-! Lemmas about the stable comparator sort. -/

theorem insertBy_perm (lt : α → α → Bool) (a : α) (l : List α) :
    (insertBy lt a l).Perm (a :: l) := by
  induction l with
  | nil => exact List.Perm.refl _
  | cons b t ih =>
    rw [insertBy]
    by_cases h : lt a b = true
    · rw [if_pos h]
    · rw [if_neg h]
      exact (ih.cons b).trans (List.Perm.swap a b t)

theorem sortBy_perm (lt : α → α → Bool) (l : List α) : (sortBy lt l).Perm l := by
  induction l with
  | nil => exact List.Perm.refl _
  | cons a t ih =>
    rw [sortBy]
    exact (insertBy_perm lt a (sortBy lt t)).trans (ih.cons a)

theorem mem_sortBy {lt : α → α → Bool} {l : List α} {x : α} :
    x ∈ sortBy lt l ↔ x ∈ l :=
  (sortBy_perm lt l).mem_iff

theorem pairwise_insertBy {lt : α → α → Bool}
    (hasym : ∀ a b, lt a b = true → lt b a = false)
    (htrans : ∀ a b c, lt a b = true → lt b c = true → lt a c = true)
    (a : α) {l : List α} (hl : l.Pairwise fun x y => lt y x = false) :
    (insertBy lt a l).Pairwise fun x y => lt y x = false := by
  induction l with
  | nil => simp [insertBy]
  | cons b t ih =>
    rw [List.pairwise_cons] at hl
    obtain ⟨hb, ht⟩ := hl
    by_cases h : lt a b = true
    · rw [insertBy, if_pos h, List.pairwise_cons]
      refine ⟨?_, List.pairwise_cons.2 ⟨hb, ht⟩⟩
      intro y hy
      rcases List.mem_cons.1 hy with rfl | hy
      · exact hasym a y h
      · by_contra hya
        rw [Bool.not_eq_false] at hya
        have : lt y b = true := htrans y a b hya h
        rw [hb y hy] at this
        exact Bool.false_ne_true this
    · rw [insertBy, if_neg h, List.pairwise_cons]
      refine ⟨?_, ih ht⟩
      intro y hy
      rcases List.mem_cons.1 ((insertBy_perm lt a t).mem_iff.1 hy) with rfl | hy
      · rw [Bool.not_eq_true] at h
        exact h
      · exact hb y hy

theorem pairwise_sortBy {lt : α → α → Bool}
    (hasym : ∀ a b, lt a b = true → lt b a = false)
    (htrans : ∀ a b c, lt a b = true → lt b c = true → lt a c = true)
    (l : List α) :
    (sortBy lt l).Pairwise fun x y => lt y x = false := by
  induction l with
  | nil => simp [sortBy]
  | cons a t ih =>
    rw [sortBy]
    exact pairwise_insertBy hasym htrans a ih

/-! Lemmas about the lexicographic string order. -/

theorem charsLt_asymm : ∀ a b : List Char, charsLt a b = true → charsLt b a = false
  | [], [] => by simp [charsLt]
  | [], _ :: _ => by simp [charsLt]
  | _ :: _, [] => by simp [charsLt]
  | x :: xs, y :: ys => by
    by_cases hxy : x = y
    · subst hxy
      rw [charsLt, if_pos rfl, charsLt, if_pos rfl]
      exact charsLt_asymm xs ys
    · rw [charsLt, if_neg hxy, charsLt, if_neg (Ne.symm hxy)]
      intro h
      rw [decide_eq_true_eq] at h
      rw [decide_eq_false_iff_not]
      exact lt_asymm h

theorem charsLt_trans :
    ∀ a b c : List Char, charsLt a b = true → charsLt b c = true → charsLt a c = true
  | a, [], _ => by
    intro h1 _
    exact absurd h1 (by cases a <;> simp [charsLt])
  | _, _ :: _, [] => by
    intro _ h2
    exact absurd h2 (by simp [charsLt])
  | [], _ :: _, _ :: _ => by
    intro _ _
    simp [charsLt]
  | x :: xs, y :: ys, z :: zs => by
    intro h1 h2
    by_cases hxy : x = y
    · subst hxy
      simp only [charsLt, if_pos rfl] at h1
      by_cases hyz : x = z
      · subst hyz
        simp only [charsLt, if_pos rfl] at h2 ⊢
        exact charsLt_trans xs ys zs h1 h2
      · simp only [charsLt, if_neg hyz] at h2 ⊢
        exact h2
    · simp only [charsLt, if_neg hxy, decide_eq_true_eq] at h1
      by_cases hyz : y = z
      · subst hyz
        simp only [charsLt, if_neg hxy, decide_eq_true_eq]
        exact h1
      · simp only [charsLt, if_neg hyz, decide_eq_true_eq] at h2
        have hxz : x < z := lt_trans h1 h2
        simp only [charsLt, if_neg (ne_of_lt hxz), decide_eq_true_eq]
        exact hxz

/-- Transitivity of the strict string order. -/
theorem strLt_trans {a b c : String} (h1 : strLt a b = true) (h2 : strLt b c = true) :
    strLt a c = true :=
  charsLt_trans a.data b.data c.data h1 h2

/-- Asymmetry of the strict string order. -/
theorem strLt_asymm {a b : String} (h : strLt a b = true) : strLt b a = false :=
  charsLt_asymm a.data b.data h

/-! Lemmas about the dictionary accumulator. -/

theorem findVal_bump_self (k : String) (f : α → α) (v0 : α) (m : List (String × α)) :
    findVal k (bump k f v0 m) = some (f ((findVal k m).getD v0)) := by
  induction m with
  | nil => simp [bump, findVal]
  | cons p m ih =>
    obtain ⟨k1, v⟩ := p
    by_cases h : k1 = k
    · subst h
      simp [bump, findVal]
    · simp [bump, findVal, h, ih]

theorem findVal_bump_ne {kq k : String} (h : kq ≠ k) (f : α → α) (v0 : α)
    (m : List (String × α)) : findVal kq (bump k f v0 m) = findVal kq m := by
  induction m with
  | nil => simp [bump, findVal, Ne.symm h]
  | cons p m ih =>
    obtain ⟨k1, v⟩ := p
    by_cases h1 : k1 = k
    · subst h1
      simp [bump, findVal, Ne.symm h]
    · simp [bump, findVal, h1, ih]

theorem keys_bump (k : String) (f : α → α) (v0 : α) (m : List (String × α)) :
    (bump k f v0 m).map Prod.fst =
      if k ∈ m.map Prod.fst then m.map Prod.fst else m.map Prod.fst ++ [k] := by
  induction m with
  | nil => simp [bump]
  | cons p m ih =>
    obtain ⟨k1, v⟩ := p
    by_cases h : k1 = k
    · subst h
      simp [bump]
    · rw [bump, if_neg h]
      by_cases h2 : k ∈ m.map Prod.fst
      · simp [h2, Ne.symm h, ih]
      · simp [h2, Ne.symm h, ih]

theorem keysNodup_bump (k : String) (f : α → α) (v0 : α) {m : List (String × α)}
    (hm : (m.map Prod.fst).Nodup) : ((bump k f v0 m).map Prod.fst).Nodup := by
  rw [keys_bump]
  by_cases h : k ∈ m.map Prod.fst
  · simpa [h] using hm
  · rw [if_neg h, List.nodup_append]
    refine ⟨hm, List.nodup_singleton k, ?_⟩
    intro a ha hak
    rw [List.mem_singleton] at hak
    subst hak
    exact h ha

theorem findVal_eq_none_iff (k : String) (m : List (String × α)) :
    findVal k m = none ↔ k ∉ m.map Prod.fst := by
  induction m with
  | nil => simp [findVal]
  | cons p m ih =>
    obtain ⟨k1, v⟩ := p
    by_cases h : k1 = k
    · subst h
      simp [findVal]
    · simp [findVal, h, ih, Ne.symm h]

theorem findVal_of_mem {m : List (String × α)} (hm : (m.map Prod.fst).Nodup) {k : String}
    {v : α} (h : (k, v) ∈ m) : findVal k m = some v := by
  induction m with
  | nil => cases h
  | cons p m ih =>
    obtain ⟨k1, v1⟩ := p
    rw [List.map_cons, List.nodup_cons] at hm
    obtain ⟨hk1, hm⟩ := hm
    rcases List.mem_cons.1 h with heq | hmem
    · cases heq
      simp [findVal]
    · by_cases hk : k1 = k
      · subst hk
        exact absurd (List.mem_map.2 ⟨(k1, v), hmem, rfl⟩) hk1
      · rw [findVal, if_neg hk]
        exact ih hm hmem

theorem findVal_foldl_groupStep {α : Type} (key : NormalizedRecord → Option String)
    (init : NormalizedRecord → α) (upd : NormalizedRecord → α → α) (k : String)
    (recs : List NormalizedRecord) :
    ∀ m : List (String × α),
      findVal k (recs.foldl (groupStep key init upd) m) =
        (recs.filter (fun r => decide (key r = some k))).foldl
          (fun o r => some (upd r (o.getD (init r)))) (findVal k m) := by
  induction recs with
  | nil => intro m; rfl
  | cons r t ih =>
    intro m
    rw [List.foldl_cons]
    by_cases hmatch : key r = some k
    · have hf : List.filter (fun r => decide (key r = some k)) (r :: t) =
          r :: List.filter (fun r => decide (key r = some k)) t := by
        simp [List.filter_cons, hmatch]
      rw [hf, List.foldl_cons, groupStep, hmatch]
      rw [ih (bump k (upd r) (init r) m), findVal_bump_self]
    · have hf : List.filter (fun r => decide (key r = some k)) (r :: t) =
          List.filter (fun r => decide (key r = some k)) t := by
        simp [List.filter_cons, hmatch]
      rw [hf]
      cases hk : key r with
      | none =>
        rw [groupStep, hk]
        exact ih m
      | some k0 =>
        have hne : k0 ≠ k := by
          rintro rfl
          exact hmatch hk
        rw [groupStep, hk]
        rw [ih (bump k0 (upd r) (init r) m), findVal_bump_ne (Ne.symm hne)]

theorem foldl_some_of_some {α : Type} (init : NormalizedRecord → α)
    (upd : NormalizedRecord → α → α) :
    ∀ (ms : List NormalizedRecord) (v : α),
      ms.foldl (fun o r => some (upd r (o.getD (init r)))) (some v) =
        some (ms.foldl (fun v r => upd r v) v) := by
  intro ms
  induction ms with
  | nil => intro v; rfl
  | cons r t ih => intro v; rw [List.foldl_cons, List.foldl_cons]; exact ih (upd r v)

theorem findVal_jsGroup {α : Type} (key : NormalizedRecord → Option String)
    (init : NormalizedRecord → α) (upd : NormalizedRecord → α → α) (k : String)
    (recs : List NormalizedRecord) :
    findVal k (jsGroup key init upd recs) =
      match recs.filter (fun r => decide (key r = some k)) with
      | [] => none
      | r0 :: ms => some (ms.foldl (fun v r => upd r v) (upd r0 (init r0))) := by
  rw [jsGroup, findVal_foldl_groupStep]
  cases h : recs.filter (fun r => decide (key r = some k)) with
  | nil => rfl
  | cons r0 ms =>
    rw [List.foldl_cons]
    exact foldl_some_of_some init upd ms (upd r0 (init r0))

theorem keysNodup_jsGroup {α : Type} (key : NormalizedRecord → Option String)
    (init : NormalizedRecord → α) (upd : NormalizedRecord → α → α)
    (recs : List NormalizedRecord) :
    ((jsGroup key init upd recs).map Prod.fst).Nodup := by
  rw [jsGroup]
  have aux : ∀ (l : List NormalizedRecord) (m : List (String × α)),
      (m.map Prod.fst).Nodup → ((l.foldl (groupStep key init upd) m).map Prod.fst).Nodup := by
    intro l
    induction l with
    | nil => intro m hm; exact hm
    | cons r t ih =>
      intro m hm
      rw [List.foldl_cons]
      cases hk : key r with
      | none =>
        rw [groupStep, hk]
        exact ih m hm
      | some k0 =>
        rw [groupStep, hk]
        exact ih _ (keysNodup_bump k0 _ _ hm)
  exact aux recs [] (by simp)

theorem mem_keys_jsGroup {α : Type} (key : NormalizedRecord → Option String)
    (init : NormalizedRecord → α) (upd : NormalizedRecord → α → α) (k : String)
    (recs : List NormalizedRecord) :
    k ∈ (jsGroup key init upd recs).map Prod.fst ↔ ∃ r ∈ recs, key r = some k := by
  have h1 := findVal_eq_none_iff k (jsGroup key init upd recs)
  have h2 := findVal_jsGroup key init upd k recs
  constructor
  · intro hmem
    by_contra hno
    push_neg at hno
    have hfil : recs.filter (fun r => decide (key r = some k)) = [] :=
      List.filter_eq_nil_iff.2 (by
        intro r hr
        simp only [decide_eq_true_eq]
        exact hno r hr)
    rw [hfil] at h2
    exact (h1.1 h2) hmem
  · intro ⟨r, hr, hk⟩
    by_contra hmem
    have : findVal k (jsGroup key init upd recs) = none := h1.2 hmem
    rw [h2] at this
    cases hfil : recs.filter (fun r => decide (key r = some k)) with
    | nil =>
      have : r ∈ recs.filter (fun r => decide (key r = some k)) :=
        List.mem_filter.2 ⟨hr, by simp [hk]⟩
      rw [hfil] at this
      cases this
    | cons r0 ms =>
      rw [hfil] at this
      cases this

theorem sumSnd_bump_add (k : String) (x : ℚ) (m : List (String × ℚ)) :
    ((bump k (fun v => v + x) 0 m).map Prod.snd).sum = (m.map Prod.snd).sum + x := by
  induction m with
  | nil => simp [bump]
  | cons p m ih =>
    obtain ⟨k1, v⟩ := p
    by_cases h : k1 = k
    · subst h
      simp [bump]
      ring
    · simp [bump, h, ih]
      ring

theorem sumSnd_jsGroup (key : NormalizedRecord → Option String) (f : NormalizedRecord → ℚ)
    (recs : List NormalizedRecord) :
    ((jsGroup key (fun _ => (0 : ℚ)) (fun r v => v + f r) recs).map Prod.snd).sum =
      ((recs.filter (fun r => (key r).isSome)).map f).sum := by
  rw [jsGroup]
  have aux : ∀ (l : List NormalizedRecord) (m : List (String × ℚ)),
      ((l.foldl (groupStep key (fun _ => (0 : ℚ)) (fun r v => v + f r)) m).map Prod.snd).sum =
        (m.map Prod.snd).sum + ((l.filter (fun r => (key r).isSome)).map f).sum := by
    intro l
    induction l with
    | nil => intro m; simp
    | cons r t ih =>
      intro m
      rw [List.foldl_cons]
      cases hk : key r with
      | none =>
        have hf : List.filter (fun r => (key r).isSome) (r :: t) =
            List.filter (fun r => (key r).isSome) t := by
          simp [List.filter_cons, hk]
        rw [hf, groupStep, hk]
        exact ih m
      | some k0 =>
        have hf : List.filter (fun r => (key r).isSome) (r :: t) =
            r :: List.filter (fun r => (key r).isSome) t := by
          simp [List.filter_cons, hk]
        rw [hf, groupStep, hk, List.map_cons, List.sum_cons]
        rw [ih (bump k0 (fun v => v + f r) 0 m), sumSnd_bump_add]
        ring
  rw [aux recs []]
  simp

/-! Small helper lemmas about the concrete pipeline pieces. -/

theorem foldl_add_eq_sum (f : NormalizedRecord → ℚ) (l : List NormalizedRecord) :
    ∀ c : ℚ, l.foldl (fun s r => s + f r) c = c + (l.map f).sum := by
  induction l with
  | nil => intro c; simp
  | cons r t ih =>
    intro c
    rw [List.foldl_cons, ih (c + f r), List.map_cons, List.sum_cons]
    ring

theorem sumTotals_eq (recs : List NormalizedRecord) :
    sumTotals recs = (recs.map fun r => r.Total).sum := by
  rw [sumTotals, foldl_add_eq_sum]
  ring

theorem categoryKey_isSome (r : NormalizedRecord) :
    (categoryKey r).isSome = decide (r.Category ≠ Value.str "CRV") := by
  rw [categoryKey]
  by_cases h : r.Category = Value.str "CRV" <;> simp [h]

theorem itemKey_decide (r : NormalizedRecord) (k : String) :
    decide (itemKey r = some k) =
      (decide (r.Category ≠ Value.str "CRV") && decide (r.Item.jsStr = k)) := by
  rw [itemKey]
  by_cases h : r.Category = Value.str "CRV"
  · simp [h]
  · by_cases h2 : r.Item.jsStr = k <;> simp [h, h2]

theorem itemKey_eq_some_iff {r : NormalizedRecord} {k : String} :
    itemKey r = some k ↔ r.Category ≠ Value.str "CRV" ∧ r.Item.jsStr = k := by
  rw [itemKey]
  by_cases h : r.Category = Value.str "CRV" <;> simp [h]

theorem monthKey_eq_some_iff {r : NormalizedRecord} {k : String} :
    monthKey r = some k ↔
      ∃ s, r.Date = Value.str s ∧ includesDash s = true ∧ substring07 s = k := by
  cases hd : r.Date with
  | str s =>
    by_cases h : includesDash s = true
    · have hmk : monthKey r = some (substring07 s) := by
        rw [monthKey, hd]
        simp [h]
      rw [hmk]
      constructor
      · intro hk
        rw [Option.some.injEq] at hk
        exact ⟨s, rfl, h, hk⟩
      · rintro ⟨s2, hs2, _, hk⟩
        rw [Value.str.injEq] at hs2
        subst hs2
        rw [hk]
    · have hmk : monthKey r = none := by
        rw [monthKey, hd]
        simp [h]
      rw [hmk]
      simp only [reduceCtorEq, false_iff]
      rintro ⟨s2, hs2, hdash, _⟩
      rw [Value.str.injEq] at hs2
      subst hs2
      exact h hdash
  | num q =>
    have hmk : monthKey r = none := by
      rw [monthKey, hd]
    rw [hmk]
    simp only [reduceCtorEq, false_iff]
    rintro ⟨s2, hs2, _, _⟩
    exact absurd hs2 (by simp)

theorem priceDateKey_eq_some_iff {r : NormalizedRecord} {d : String} :
    priceDateKey r = some d ↔
      r.Date = Value.str d ∧ r.Price.truthy = true ∧ r.Quantity.truthy = true := by
  cases hd : r.Date with
  | str s =>
    by_cases h : (r.Price.truthy && r.Quantity.truthy) = true
    · have hmk : priceDateKey r = some s := by
        rw [priceDateKey, hd]
        simp [h]
      rw [hmk]
      rw [Bool.and_eq_true] at h
      constructor
      · intro hk
        rw [Option.some.injEq] at hk
        exact ⟨by rw [hk], h.1, h.2⟩
      · rintro ⟨hs, _, _⟩
        rw [Value.str.injEq] at hs
        rw [hs]
    · have hmk : priceDateKey r = none := by
        rw [priceDateKey, hd]
        simp [h]
      rw [hmk]
      simp only [reduceCtorEq, false_iff]
      rintro ⟨_, hp, hq⟩
      exact h (by simp [hp, hq])
  | num q =>
    have hmk : priceDateKey r = none := by
      rw [priceDateKey, hd]
    rw [hmk]
    simp only [reduceCtorEq, false_iff]
    rintro ⟨hs, _, _⟩
    exact absurd hs (by simp)

theorem priceDateKey_decide (r : NormalizedRecord) (d : String) :
    decide (priceDateKey r = some d) =
      (decide (r.Date = Value.str d) && r.Price.truthy && r.Quantity.truthy) := by
  by_cases h : priceDateKey r = some d
  · obtain ⟨h1, h2, h3⟩ := priceDateKey_eq_some_iff.1 h
    rw [decide_eq_true h, decide_eq_true h1, h2, h3]
    rfl
  · rw [decide_eq_false h]
    by_cases h1 : r.Date = Value.str d
    · rcases hp : r.Price.truthy with _ | _
      · simp [decide_eq_true h1, hp]
      · rcases hq : r.Quantity.truthy with _ | _
        · simp [decide_eq_true h1, hp, hq]
        · exact absurd (priceDateKey_eq_some_iff.2 ⟨h1, hp, hq⟩) h
    · rw [decide_eq_false h1]
      rfl

theorem itemStats_foldl (ms : List NormalizedRecord) :
    ∀ v : ItemStats,
      ms.foldl (fun v r => (⟨v.count + 1, v.total + r.Total, v.category⟩ : ItemStats)) v =
        ⟨v.count + ms.length, v.total + (ms.map fun r => r.Total).sum, v.category⟩ := by
  induction ms with
  | nil => intro v; simp
  | cons r t ih =>
    rintro ⟨c0, t0, cat0⟩
    rw [List.foldl_cons]
    refine (ih ⟨c0 + 1, t0 + r.Total, cat0⟩).trans ?_
    rw [List.map_cons, List.sum_cons, List.length_cons, ItemStats.mk.injEq]
    refine ⟨?_, ?_, rfl⟩
    · show c0 + 1 + t.length = c0 + (t.length + 1)
      omega
    · show t0 + r.Total + (List.map (fun r => r.Total) t).sum =
        t0 + (r.Total + (List.map (fun r => r.Total) t).sum)
      ring

theorem head?_filter_eq_find? (p : α → Bool) (l : List α) :
    (l.filter p).head? = l.find? p := by
  induction l with
  | nil => rfl
  | cons a t ih =>
    rw [List.filter_cons, List.find?_cons]
    rcases h : p a with _ | _
    · simp only [Bool.false_eq_true, if_false]
      exact ih
    · simp

/-! Claim theorems. -/

/-- Claim C1, counterexample: on a record set holding a single record with
Category "CRV" and Total 1, the Category Summary is empty, so the sum of its
values (0) differs from the sum of the Total fields of all records (1). -/
theorem claim_C1_cex :
    ¬ ((categoryArray [recCrv]).map SummaryEntry.value).sum =
      (([recCrv] : List NormalizedRecord).map fun r => r.Total).sum := by
  have h1 : categoryArray [recCrv] = [] := by decide
  intro h
  rw [h1] at h
  norm_num [recCrv] at h

/-- Claim C1, amended: for every normalized record set, the sum of the
values in the Category Summary equals the sum of the Total fields of the
records whose Category is not "CRV" (records with Category "CRV" are
excluded from the category buckets, so their Totals are missing from the
summary). -/
theorem claim_C1 (recs : List NormalizedRecord) :
    ((categoryArray recs).map SummaryEntry.value).sum =
      ((recs.filter fun r => decide (r.Category ≠ Value.str "CRV")).map fun r => r.Total).sum := by
  have hperm := (sortBy_perm (fun a b : SummaryEntry => decide (b.value < a.value))
    ((jsGroup categoryKey (fun _ => (0 : ℚ)) (fun r v => v + r.Total) recs).map
      fun p => (⟨p.1, p.2, toFixed 1 (p.2 * 100 / sumTotals recs)⟩ : SummaryEntry)))
  rw [categoryArray, (hperm.map SummaryEntry.value).sum_eq, List.map_map]
  have hcomp : (SummaryEntry.value ∘ fun p : String × ℚ =>
      (⟨p.1, p.2, toFixed 1 (p.2 * 100 / sumTotals recs)⟩ : SummaryEntry)) =
      (Prod.snd : String × ℚ → ℚ) := rfl
  rw [hcomp, sumSnd_jsGroup]
  have hfil : (recs.filter fun r => (categoryKey r).isSome) =
      recs.filter fun r => decide (r.Category ≠ Value.str "CRV") :=
    List.filter_congr fun r _ => categoryKey_isSome r
  rw [hfil]

/-- Claim C1, witness: the amended statement evaluated on the record set
with one Produce and one CRV record. -/
theorem claim_C1_witness :
    ((categoryArray [recApples, recCrv]).map SummaryEntry.value).sum =
      ((([recApples, recCrv] : List NormalizedRecord).filter
          fun r => decide (r.Category ≠ Value.str "CRV")).map fun r => r.Total).sum :=
  claim_C1 [recApples, recCrv]

/-- Claim C2: a parsed row enters the normalized record set if and only if
it has at least 8 positional values and its 8th value is a number; in
particular a 6-column row is excluded, a row whose 8th value is the string
"N/A" is excluded, and no other field's type affects acceptance. -/
theorem claim_C2 :
    (∀ row : List Value, (cleanRow row).isSome ↔
        8 ≤ row.length ∧ ∃ q : ℚ, row[7]? = some (Value.num q)) ∧
      cleanRow [Value.str "2025-01-05", Value.str "MarketA", Value.str "Produce",
        Value.str "Apples", Value.num 2, Value.str "lb"] = none ∧
      cleanRow [Value.str "2025-01-05", Value.str "MarketA", Value.str "Produce",
        Value.str "Apples", Value.num 2, Value.str "lb", Value.num 2,
        Value.str "N/A"] = none := by
  refine ⟨?_, by decide, by decide⟩
  intro row
  constructor
  · intro h
    rw [cleanRow] at h
    by_cases hl : 8 ≤ row.length
    · rw [if_pos hl] at h
      refine ⟨hl, ?_⟩
      cases hv : row.getD 7 (Value.str "") with
      | num q =>
        refine ⟨q, ?_⟩
        rw [List.getD_eq_getElem?_getD] at hv
        cases hg : row[7]? with
        | none =>
          rw [hg] at hv
          exact absurd hv (by simp)
        | some v =>
          rw [hg, Option.getD_some] at hv
          rw [hv]
      | str s =>
        rw [hv] at h
        simp at h
    · rw [if_neg hl] at h
      simp at h
  · rintro ⟨hl, q, hq⟩
    rw [cleanRow, if_pos hl, List.getD_eq_getElem?_getD, hq]
    rfl

/-- Claim C3: for every non-empty normalized record set, the percentage of
each Category Summary entry is the entry's value times 100 divided by the
sum of Total over all records (CRV included), rounded to one decimal for
display, and the Store Summary percentage uses the same all-records
denominator. -/
theorem claim_C3 (recs : List NormalizedRecord) (h : recs ≠ []) :
    (∀ e ∈ categoryArray recs,
        e.percentage = toFixed 1 (e.value * 100 / (recs.map fun r => r.Total).sum)) ∧
      ∀ e ∈ storeArray recs,
        e.percentage = toFixed 1 (e.value * 100 / (recs.map fun r => r.Total).sum) := by
  have hsum := sumTotals_eq recs
  constructor
  · intro e he
    rw [categoryArray] at he
    obtain ⟨p, hp, rfl⟩ := List.mem_map.1 (mem_sortBy.1 he)
    show toFixed 1 (p.2 * 100 / sumTotals recs) = toFixed 1 (p.2 * 100 / _)
    rw [hsum]
  · intro e he
    rw [storeArray] at he
    obtain ⟨p, hp, rfl⟩ := List.mem_map.1 (mem_sortBy.1 he)
    show toFixed 1 (p.2 * 100 / sumTotals recs) = toFixed 1 (p.2 * 100 / _)
    rw [hsum]

/-- Claim C3, witness: the statement instantiated on the record set with one
Produce and one CRV record, whose grand total includes the CRV Total. -/
theorem claim_C3_witness :
    (∀ e ∈ categoryArray [recApples, recCrv],
        e.percentage = toFixed 1 (e.value * 100 /
          (([recApples, recCrv] : List NormalizedRecord).map fun r => r.Total).sum)) ∧
      ∀ e ∈ storeArray [recApples, recCrv],
        e.percentage = toFixed 1 (e.value * 100 /
          (([recApples, recCrv] : List NormalizedRecord).map fun r => r.Total).sum) :=
  claim_C3 [recApples, recCrv] (by simp)

/-- Claim C4: for every normalized record set, the Top Items list has at
most 10 entries, is sorted descending by purchase count, and each entry
aggregates only records with Category other than "CRV": its category is not
"CRV", its count and total are the number and Total-sum of the non-CRV
records bearing its name, and its average price is total divided by count
rounded to 2 decimal places. -/
theorem claim_C4 (recs : List NormalizedRecord) :
    (itemArray recs).length ≤ 10 ∧
      ((itemArray recs).Pairwise fun a b => b.count ≤ a.count) ∧
      ∀ e ∈ itemArray recs,
        e.category ≠ Value.str "CRV" ∧
          e.avgPrice = toFixed 2 (e.total / (e.count : ℚ)) ∧
          e.count = (recs.filter fun r =>
            decide (r.Category ≠ Value.str "CRV") && decide (r.Item.jsStr = e.name)).length ∧
          e.total = ((recs.filter fun r =>
            decide (r.Category ≠ Value.str "CRV") && decide (r.Item.jsStr = e.name)).map
              fun r => r.Total).sum := by
  refine ⟨?_, ?_, ?_⟩
  · rw [itemArray]
    exact List.length_take_le 10 _
  · rw [itemArray]
    refine List.Pairwise.sublist (List.take_sublist _ _) ?_
    have hasym : ∀ a b : TopItem, decide (b.count < a.count) = true →
        decide (a.count < b.count) = false := by
      intro a b h
      rw [decide_eq_true_eq] at h
      rw [decide_eq_false_iff_not]
      omega
    have htrans : ∀ a b c : TopItem, decide (b.count < a.count) = true →
        decide (c.count < b.count) = true → decide (c.count < a.count) = true := by
      intro a b c h1 h2
      rw [decide_eq_true_eq] at h1 h2
      rw [decide_eq_true_eq]
      omega
    refine (pairwise_sortBy hasym htrans _).imp ?_
    intro a b h
    rw [decide_eq_false_iff_not] at h
    omega
  · intro e he
    rw [itemArray] at he
    have he2 := (List.take_sublist 10 _).subset he
    obtain ⟨p, hpfil, rfl⟩ := List.mem_map.1 (mem_sortBy.1 he2)
    have hpG := List.mem_of_mem_filter hpfil
    have hcrvP : p.2.category ≠ Value.str "CRV" := by
      have h := List.of_mem_filter hpfil
      rwa [decide_eq_true_eq] at h
    have hfind : findVal p.1 (jsGroup itemKey
        (fun r => ({ count := 0, total := 0, category := r.Category } : ItemStats))
        (fun r v => ⟨v.count + 1, v.total + r.Total, v.category⟩) recs) = some p.2 :=
      findVal_of_mem (keysNodup_jsGroup _ _ _ recs) hpG
    rw [findVal_jsGroup] at hfind
    have hpredEq : (fun r : NormalizedRecord =>
        decide (r.Category ≠ Value.str "CRV") && decide (r.Item.jsStr = p.1)) =
        fun r => decide (itemKey r = some p.1) :=
      funext fun r => (itemKey_decide r p.1).symm
    cases hfil : recs.filter (fun r => decide (itemKey r = some p.1)) with
    | nil =>
      rw [hfil] at hfind
      cases hfind
    | cons r0 ms =>
      rw [hfil] at hfind
      rw [Option.some.injEq] at hfind
      have hstep : (ms.foldl (fun v r => (⟨v.count + 1, v.total + r.Total, v.category⟩ :
          ItemStats)) ⟨0 + 1, 0 + r0.Total, r0.Category⟩) =
          ⟨0 + 1 + ms.length, 0 + r0.Total + (ms.map fun r => r.Total).sum, r0.Category⟩ :=
        itemStats_foldl ms _
      have hval : p.2 = ⟨0 + 1 + ms.length, 0 + r0.Total + (ms.map fun r => r.Total).sum,
          r0.Category⟩ := by
        rw [← hfind]
        exact hstep
      refine ⟨hcrvP, rfl, ?_, ?_⟩
      · show p.2.count = (recs.filter fun r =>
          decide (r.Category ≠ Value.str "CRV") && decide (r.Item.jsStr = p.1)).length
        rw [hpredEq, hfil, hval]
        show 0 + 1 + ms.length = (r0 :: ms).length
        rw [List.length_cons]
        omega
      · show p.2.total = ((recs.filter fun r =>
          decide (r.Category ≠ Value.str "CRV") && decide (r.Item.jsStr = p.1)).map
            fun r => r.Total).sum
        rw [hpredEq, hfil, hval]
        show 0 + r0.Total + (ms.map fun r => r.Total).sum =
          ((r0 :: ms).map fun r => r.Total).sum
        rw [List.map_cons, List.sum_cons]
        ring

/-- Claim C4, witness: the statement instantiated on a set with repeated
milk purchases and a CRV record. -/
theorem claim_C4_witness :
    (itemArray [recWholeMilk, recWholeMilkB, recAlmondMilk, recCrv]).length ≤ 10 ∧
      ((itemArray [recWholeMilk, recWholeMilkB, recAlmondMilk, recCrv]).Pairwise
        fun a b => b.count ≤ a.count) ∧
      ∀ e ∈ itemArray [recWholeMilk, recWholeMilkB, recAlmondMilk, recCrv],
        e.category ≠ Value.str "CRV" ∧
          e.avgPrice = toFixed 2 (e.total / (e.count : ℚ)) ∧
          e.count = (([recWholeMilk, recWholeMilkB, recAlmondMilk, recCrv] :
              List NormalizedRecord).filter fun r =>
            decide (r.Category ≠ Value.str "CRV") && decide (r.Item.jsStr = e.name)).length ∧
          e.total = ((([recWholeMilk, recWholeMilkB, recAlmondMilk, recCrv] :
              List NormalizedRecord).filter fun r =>
            decide (r.Category ≠ Value.str "CRV") && decide (r.Item.jsStr = e.name)).map
              fun r => r.Total).sum :=
  claim_C4 [recWholeMilk, recWholeMilkB, recAlmondMilk, recCrv]

/-- Claim C5, counterexample: a record whose Date is the dash-free string
"20250105" has the 7-character prefix "2025010", yet the Monthly Summary of
the singleton set holding it is empty, so the summary keys are not the
distinct 7-character Date prefixes of the set. -/
theorem claim_C5_cex :
    ¬ ∀ k : String, (∃ e ∈ monthArray [recNoDash], e.month = k) ↔
        ∃ r ∈ ([recNoDash] : List NormalizedRecord), substring07 r.Date.jsStr = k := by
  intro h
  have h1 : ∃ r ∈ ([recNoDash] : List NormalizedRecord),
      substring07 r.Date.jsStr = "2025010" :=
    ⟨recNoDash, List.mem_singleton_self _, by decide⟩
  obtain ⟨e, he, _⟩ := (h "2025010").2 h1
  have h2 : monthArray [recNoDash] = [] := by decide
  rw [h2] at he
  exact List.not_mem_nil e he

/-- Claim C5, amended: the Monthly Summary keys are exactly the distinct
7-character prefixes of the Date fields of those records whose Date is a
string containing a dash (records with a numeric or dash-free Date
contribute no month), each key appears once, and the summary is sorted
ascending lexically by month key. -/
theorem claim_C5 (recs : List NormalizedRecord) :
    (∀ k : String, (∃ e ∈ monthArray recs, e.month = k) ↔
        ∃ r ∈ recs, ∃ s, r.Date = Value.str s ∧ includesDash s = true ∧ substring07 s = k) ∧
      ((monthArray recs).map MonthEntry.month).Nodup ∧
      (monthArray recs).Pairwise fun a b => strLt b.month a.month = false := by
  refine ⟨?_, ?_, ?_⟩
  · intro k
    have hmm : (∃ e ∈ monthArray recs, e.month = k) ↔
        k ∈ (jsGroup monthKey (fun _ => (0 : ℚ)) (fun r v => v + r.Total) recs).map
          Prod.fst := by
      rw [monthArray]
      constructor
      · rintro ⟨e, he, rfl⟩
        obtain ⟨p, hp, rfl⟩ := List.mem_map.1 (mem_sortBy.1 he)
        exact List.mem_map.2 ⟨p, hp, rfl⟩
      · intro hk
        obtain ⟨p, hp, rfl⟩ := List.mem_map.1 hk
        exact ⟨⟨p.1, p.2⟩, mem_sortBy.2 (List.mem_map.2 ⟨p, hp, rfl⟩), rfl⟩
    rw [hmm, mem_keys_jsGroup]
    constructor
    · rintro ⟨r, hr, hk⟩
      exact ⟨r, hr, monthKey_eq_some_iff.1 hk⟩
    · rintro ⟨r, hr, hs⟩
      exact ⟨r, hr, monthKey_eq_some_iff.2 hs⟩
  · have hkeys := keysNodup_jsGroup monthKey (fun _ => (0 : ℚ)) (fun r v => v + r.Total) recs
    rw [monthArray]
    have hperm := (sortBy_perm (fun a b : MonthEntry => strLt a.month b.month)
      ((jsGroup monthKey (fun _ => (0 : ℚ)) (fun r v => v + r.Total) recs).map
        fun p => (⟨p.1, p.2⟩ : MonthEntry))).map MonthEntry.month
    refine hperm.nodup_iff.2 ?_
    rw [List.map_map]
    exact hkeys
  · have hasym : ∀ a b : MonthEntry,
        strLt a.month b.month = true → strLt b.month a.month = false :=
      fun a b h => strLt_asymm h
    have htrans : ∀ a b c : MonthEntry, strLt a.month b.month = true →
        strLt b.month c.month = true → strLt a.month c.month = true :=
      fun a b c h1 h2 => strLt_trans h1 h2
    rw [monthArray]
    exact pairwise_sortBy hasym htrans _

/-- Claim C5, witness: the amended statement instantiated on a set with two
dashed months and one dash-free Date. -/
theorem claim_C5_witness :
    (∀ k : String, (∃ e ∈ monthArray [recWholeMilk, recApples, recNoDash], e.month = k) ↔
        ∃ r ∈ ([recWholeMilk, recApples, recNoDash] : List NormalizedRecord),
          ∃ s, r.Date = Value.str s ∧ includesDash s = true ∧ substring07 s = k) ∧
      ((monthArray [recWholeMilk, recApples, recNoDash]).map MonthEntry.month).Nodup ∧
      (monthArray [recWholeMilk, recApples, recNoDash]).Pairwise
        fun a b => strLt b.month a.month = false :=
  claim_C5 [recWholeMilk, recApples, recNoDash]

/-- Claim C6: for every normalized record set the Trip Summary's totalTrips
is the number of distinct Date strings among the records, totalSpent is the
sum of all record Totals, totalItems is the record count, and avgPerTrip is
totalSpent divided by totalTrips. -/
theorem claim_C6 (recs : List NormalizedRecord) :
    (stats recs).totalTrips = ((recs.map fun r => r.Date.jsStr).dedup).length ∧
      (stats recs).totalSpent = (recs.map fun r => r.Total).sum ∧
      (stats recs).totalItems = recs.length ∧
      (stats recs).avgPerTrip = (stats recs).totalSpent / ((stats recs).totalTrips : ℚ) := by
  refine ⟨?_, sumTotals_eq recs, rfl, rfl⟩
  show (trips recs).length = ((recs.map fun r => r.Date.jsStr).dedup).length
  have hkeys : ((trips recs).map Prod.fst).Nodup :=
    keysNodup_jsGroup (fun r => some r.Date.jsStr) (fun _ => ((0 : ℚ), (0 : ℕ)))
      (fun r v => (v.1 + r.Total, v.2 + 1)) recs
  have hmem : ∀ k, k ∈ (trips recs).map Prod.fst ↔
      k ∈ recs.map fun r => r.Date.jsStr := by
    intro k
    rw [trips, mem_keys_jsGroup]
    constructor
    · rintro ⟨r, hr, hk⟩
      rw [Option.some.injEq] at hk
      exact List.mem_map.2 ⟨r, hr, hk⟩
    · intro hk
      obtain ⟨r, hr, hk⟩ := List.mem_map.1 hk
      exact ⟨r, hr, by rw [hk]⟩
  have hperm : ((trips recs).map Prod.fst).Perm ((recs.map fun r => r.Date.jsStr).dedup) := by
    rw [List.perm_ext_iff_of_nodup hkeys (List.nodup_dedup _)]
    intro k
    rw [hmem k, List.mem_dedup]
  calc (trips recs).length = ((trips recs).map Prod.fst).length :=
        (List.length_map _ _).symm
    _ = _ := hperm.length_eq

/-- Claim C6, witness: the statement instantiated on the milk set extended
with a record sharing a date. -/
theorem claim_C6_witness :
    (stats [recWholeMilk, recAlmondMilk, recCrv]).totalTrips =
        (([recWholeMilk, recAlmondMilk, recCrv] : List NormalizedRecord).map
          (fun r => r.Date.jsStr)).dedup.length ∧
      (stats [recWholeMilk, recAlmondMilk, recCrv]).totalSpent =
        (([recWholeMilk, recAlmondMilk, recCrv] : List NormalizedRecord).map
          fun r => r.Total).sum ∧
      (stats [recWholeMilk, recAlmondMilk, recCrv]).totalItems =
        ([recWholeMilk, recAlmondMilk, recCrv] : List NormalizedRecord).length ∧
      (stats [recWholeMilk, recAlmondMilk, recCrv]).avgPerTrip =
        (stats [recWholeMilk, recAlmondMilk, recCrv]).totalSpent /
          ((stats [recWholeMilk, recAlmondMilk, recCrv]).totalTrips : ℚ) :=
  claim_C6 [recWholeMilk, recAlmondMilk, recCrv]

/-- Claim C7, counterexample: on a record whose Item is the number 0, a
search for "0" returns no results even though the string form "0" of the
Item contains the term, because the filter first requires the Item value to
be truthy and the number 0 is falsy. -/
theorem claim_C7_cex :
    ¬ (handleSearch "0" [recZeroItem] stEmpty).searchResults =
      ([recZeroItem] : List NormalizedRecord).filter
        (fun r => jsIncludes (jsToLower r.Item.jsStr) (jsToLower "0")) := by
  decide

/-- Claim C7, amended: for every non-blank search term, the search result is
the subset of records whose Item is truthy (neither the empty string nor the
number 0) and whose string form case-insensitively contains the term as a
substring, and totalSpent is the sum of Total over that subset; the spec's
"milk" example behaves as claimed: 2 results, totalSpent 7.50 (= 15/2),
purchase history of length 2. -/
theorem claim_C7 (term : String) (data : List NormalizedRecord) (st : SearchState)
    (h : jsTrim term ≠ "") :
    (handleSearch term data st).searchResults =
        (data.filter fun r =>
          r.Item.truthy && jsIncludes (jsToLower r.Item.jsStr) (jsToLower term)) ∧
      (handleSearch term data st).totalSpent =
        (((handleSearch term data st).searchResults).map fun r => r.Total).sum ∧
      (handleSearch "milk" milkSet stEmpty).searchResults.length = 2 ∧
      (handleSearch "milk" milkSet stEmpty).totalSpent = 15 / 2 ∧
      (handleSearch "milk" milkSet stEmpty).purchaseHistory.length = 2 := by
  have hres : ∀ (t2 : String) (d2 : List NormalizedRecord) (s2 : SearchState),
      jsTrim t2 ≠ "" → (handleSearch t2 d2 s2).searchResults =
        d2.filter fun r =>
          r.Item.truthy && jsIncludes (jsToLower r.Item.jsStr) (jsToLower t2) := by
    intro t2 d2 s2 ht
    rw [handleSearch, if_neg ht]
    exact rfl
  have htot : ∀ (t2 : String) (d2 : List NormalizedRecord) (s2 : SearchState),
      jsTrim t2 ≠ "" → (handleSearch t2 d2 s2).totalSpent =
        (((handleSearch t2 d2 s2).searchResults).map fun r => r.Total).sum := by
    intro t2 d2 s2 ht
    rw [handleSearch, if_neg ht]
    show (searchFilter t2 d2).foldl (fun s r => s + r.Total) 0 =
      ((searchFilter t2 d2).map fun r => r.Total).sum
    rw [foldl_add_eq_sum]
    ring
  have hms : (handleSearch "milk" milkSet stEmpty).searchResults = milkSet := by
    rw [hres "milk" milkSet stEmpty (by decide), milkSet]
    rw [List.filter_cons_of_pos (by decide), List.filter_cons_of_pos (by decide),
      List.filter_nil]
  refine ⟨hres term data st h, htot term data st h, ?_, ?_, ?_⟩
  · rw [hms]
    decide
  · rw [htot "milk" milkSet stEmpty (by decide), hms, milkSet]
    simp only [List.map_cons, List.map_nil, List.sum_cons, List.sum_nil,
      recWholeMilk, recAlmondMilk]
    norm_num
  · decide

/-- Claim C7, witness: the amended statement instantiated at the "milk" term
on the milk set. -/
theorem claim_C7_witness :
    (handleSearch "milk" milkSet stEmpty).searchResults =
        (milkSet.filter fun r =>
          r.Item.truthy && jsIncludes (jsToLower r.Item.jsStr) (jsToLower "milk")) ∧
      (handleSearch "milk" milkSet stEmpty).totalSpent =
        (((handleSearch "milk" milkSet stEmpty).searchResults).map fun r => r.Total).sum ∧
      (handleSearch "milk" milkSet stEmpty).searchResults.length = 2 ∧
      (handleSearch "milk" milkSet stEmpty).totalSpent = 15 / 2 ∧
      (handleSearch "milk" milkSet stEmpty).purchaseHistory.length = 2 :=
  claim_C7 "milk" milkSet stEmpty (by decide)

/-- Claim C8: the price snapshot of a search is computed from the result
subset; for every result subset its entries are exactly the string dates on
which some matching record has truthy Price and Quantity, each entry holds
the Price of the first such record for its date (not an average), and the
snapshot is sorted ascending by date string. -/
theorem claim_C8 (rs : List NormalizedRecord) (term : String)
    (data : List NormalizedRecord) (st : SearchState) (h : jsTrim term ≠ "") :
    (handleSearch term data st).priceHistory =
        priceArray ((handleSearch term data st).searchResults) ∧
      (∀ d : String, (∃ e ∈ priceArray rs, e.date = d) ↔
        ∃ r ∈ rs, r.Date = Value.str d ∧ r.Price.truthy = true ∧
          r.Quantity.truthy = true) ∧
      (∀ e ∈ priceArray rs, ∃ r0,
        rs.find? (fun r => decide (r.Date = Value.str e.date) && r.Price.truthy &&
          r.Quantity.truthy) = some r0 ∧ e.price = r0.Price) ∧
      (priceArray rs).Pairwise fun a b => strLt b.date a.date = false := by
  have hchar : ∀ p ∈ jsGroup priceDateKey
      (fun r => (⟨r.Date.jsStr, r.Price⟩ : PriceEntry)) (fun _ v => v) rs,
      (p.2).date = p.1 ∧ ∃ r0,
        rs.find? (fun r => decide (priceDateKey r = some p.1)) = some r0 ∧
          p.2.price = r0.Price := by
    intro p hp
    have hfind := findVal_of_mem (keysNodup_jsGroup _ _ _ rs) hp
    rw [findVal_jsGroup] at hfind
    cases hfil : rs.filter (fun r => decide (priceDateKey r = some p.1)) with
    | nil =>
      rw [hfil] at hfind
      cases hfind
    | cons r0 ms =>
      rw [hfil] at hfind
      rw [Option.some.injEq, List.foldl_fixed] at hfind
      have hr0 : r0 ∈ rs.filter (fun r => decide (priceDateKey r = some p.1)) := by
        rw [hfil]
        exact List.mem_cons_self _ _
      have hk0 := (List.mem_filter.1 hr0).2
      rw [decide_eq_true_eq] at hk0
      obtain ⟨hd0, _, _⟩ := priceDateKey_eq_some_iff.1 hk0
      refine ⟨?_, r0, ?_, ?_⟩
      · rw [← hfind]
        show r0.Date.jsStr = p.1
        rw [hd0]
        rfl
      · rw [← head?_filter_eq_find?, hfil]
        rfl
      · rw [← hfind]
  refine ⟨?_, ?_, ?_, ?_⟩
  · rw [handleSearch, if_neg h]
  · intro d
    constructor
    · rintro ⟨e, he, rfl⟩
      obtain ⟨p, hp, rfl⟩ := List.mem_map.1 (mem_sortBy.1 he)
      have hd := (hchar p hp).1
      have hk : p.1 ∈ (jsGroup priceDateKey
          (fun r => (⟨r.Date.jsStr, r.Price⟩ : PriceEntry)) (fun _ v => v) rs).map
            Prod.fst := List.mem_map.2 ⟨p, hp, rfl⟩
      rw [mem_keys_jsGroup] at hk
      obtain ⟨r, hr, hkr⟩ := hk
      obtain ⟨h1, h2, h3⟩ := priceDateKey_eq_some_iff.1 hkr
      refine ⟨r, hr, ?_, h2, h3⟩
      rw [hd, h1]
    · rintro ⟨r, hr, h1, h2, h3⟩
      have hk : d ∈ (jsGroup priceDateKey
          (fun r => (⟨r.Date.jsStr, r.Price⟩ : PriceEntry)) (fun _ v => v) rs).map
            Prod.fst := by
        rw [mem_keys_jsGroup]
        exact ⟨r, hr, priceDateKey_eq_some_iff.2 ⟨h1, h2, h3⟩⟩
      obtain ⟨p, hp, hp1⟩ := List.mem_map.1 hk
      refine ⟨p.2, mem_sortBy.2 (List.mem_map.2 ⟨p, hp, rfl⟩), ?_⟩
      rw [(hchar p hp).1, hp1]
  · intro e he
    obtain ⟨p, hp, rfl⟩ := List.mem_map.1 (mem_sortBy.1 he)
    obtain ⟨hd, r0, hfind, hprice⟩ := hchar p hp
    refine ⟨r0, ?_, hprice⟩
    have hfn : (fun r : NormalizedRecord =>
        decide (r.Date = Value.str (p.2).date) && r.Price.truthy && r.Quantity.truthy) =
        fun r => decide (priceDateKey r = some (p.2).date) :=
      funext fun r => (priceDateKey_decide r (p.2).date).symm
    rw [hfn, hd]
    exact hfind
  · have hasym : ∀ a b : PriceEntry,
        strLt a.date b.date = true → strLt b.date a.date = false :=
      fun a b hab => strLt_asymm hab
    have htrans : ∀ a b c : PriceEntry, strLt a.date b.date = true →
        strLt b.date c.date = true → strLt a.date c.date = true :=
      fun a b c h1 h2 => strLt_trans h1 h2
    rw [priceArray]
    exact pairwise_sortBy hasym htrans _

/-- Claim C8, witness: the statement instantiated on a result subset with a
repeated date, searched from the milk set. -/
theorem claim_C8_witness :
    (handleSearch "milk" milkSet stEmpty).priceHistory =
        priceArray ((handleSearch "milk" milkSet stEmpty).searchResults) ∧
      (∀ d : String,
        (∃ e ∈ priceArray [recWholeMilk, recWholeMilkB, recAlmondMilk], e.date = d) ↔
        ∃ r ∈ ([recWholeMilk, recWholeMilkB, recAlmondMilk] : List NormalizedRecord),
          r.Date = Value.str d ∧ r.Price.truthy = true ∧ r.Quantity.truthy = true) ∧
      (∀ e ∈ priceArray [recWholeMilk, recWholeMilkB, recAlmondMilk], ∃ r0,
        ([recWholeMilk, recWholeMilkB, recAlmondMilk] : List NormalizedRecord).find?
          (fun r => decide (r.Date = Value.str e.date) && r.Price.truthy &&
            r.Quantity.truthy) = some r0 ∧ e.price = r0.Price) ∧
      (priceArray [recWholeMilk, recWholeMilkB, recAlmondMilk]).Pairwise
        fun a b => strLt b.date a.date = false :=
  claim_C8 [recWholeMilk, recWholeMilkB, recAlmondMilk] "milk" milkSet stEmpty (by decide)

/-- Claim C9: a search whose term is empty or consists only of whitespace
is a no-op, leaving the whole search state (result subset, total spent,
purchase history, price history) unchanged. -/
theorem claim_C9 (term : String) (data : List NormalizedRecord) (st : SearchState)
    (h : jsTrim term = "") : handleSearch term data st = st := by
  rw [handleSearch, if_pos h]

/-- Claim C9, witness: a whitespace-only term on a non-trivial prior state. -/
theorem claim_C9_witness :
    handleSearch "  " [recApples]
      ⟨[recWholeMilk], 7 / 2, [⟨"2025-01-05", Value.num 1, 7 / 2⟩],
        [⟨"2025-01-05", Value.num (7 / 2)⟩]⟩ =
      ⟨[recWholeMilk], 7 / 2, [⟨"2025-01-05", Value.num 1, 7 / 2⟩],
        [⟨"2025-01-05", Value.num (7 / 2)⟩]⟩ :=
  claim_C9 "  " [recApples] _ (by decide)

/-- Claim C10: a raw row with strictly more than 8 positional values whose
8th value is numeric is accepted, and the values beyond the 8th are
discarded: the normalized record is the one produced from the row truncated
to its first 8 values. -/
theorem claim_C10 (row : List Value) (h8 : 8 < row.length)
    (hq : ∃ q : ℚ, row[7]? = some (Value.num q)) :
    (cleanRow row).isSome ∧ cleanRow row = cleanRow (row.take 8) := by
  obtain ⟨q, hq⟩ := hq
  have hl : 8 ≤ row.length := le_of_lt h8
  have hl8 : 8 ≤ (row.take 8).length := by
    rw [List.length_take]
    omega
  have hget : ∀ i, i < 8 →
      (row.take 8).getD i (Value.str "") = row.getD i (Value.str "") := by
    intro i hi
    rw [List.getD_eq_getElem?_getD, List.getD_eq_getElem?_getD, List.getElem?_take,
      if_pos hi]
  constructor
  · rw [cleanRow, if_pos hl, List.getD_eq_getElem?_getD, hq]
    rfl
  · simp only [cleanRow]
    rw [if_pos hl, if_pos hl8]
    rw [hget 0 (by omega), hget 1 (by omega), hget 2 (by omega), hget 3 (by omega),
      hget 4 (by omega), hget 5 (by omega), hget 6 (by omega), hget 7 (by omega)]

/-- Claim C10, witness: a 9-value row with numeric 8th value is accepted and
equals the cleaning of its first 8 values. -/
theorem claim_C10_witness :
    (cleanRow [Value.str "2025-03-01", Value.str "MarketA", Value.str "Pantry",
        Value.str "Rice", Value.num 1, Value.str "bag", Value.num 2, Value.num 3,
        Value.str "extra"]).isSome ∧
      cleanRow [Value.str "2025-03-01", Value.str "MarketA", Value.str "Pantry",
        Value.str "Rice", Value.num 1, Value.str "bag", Value.num 2, Value.num 3,
        Value.str "extra"] =
        cleanRow ([Value.str "2025-03-01", Value.str "MarketA", Value.str "Pantry",
          Value.str "Rice", Value.num 1, Value.str "bag", Value.num 2, Value.num 3,
          Value.str "extra"].take 8) :=
  claim_C10 _ (by decide) ⟨3, rfl⟩

end Grocery
